import Mathlib

/-!
Verification development for the `ts-transformer-json-schema` type-to-schema
transformer.  The repository contains two variants of the same component:

* the full variant (the compiled module `src/unnamed/part_000`), whose
  parsing functions `parseType`, `parsePrimitive`, `parseEnum`, `parseArray`,
  `parseUnion`, `parseIntersection`, `parseInterface`, `parseJSDoc` and the
  helpers `addProperty` / `addProperties` are embedded below in namespace
  `Full`;
* the simplified variant (`src/transformer.ts`), embedded in namespace
  `Simple`.

The compiler's type-checking oracle is modelled by the inductive `Ty`
(a tagged union over the type kinds the dispatch in `parseType`
discriminates), together with an environment `TyEnv` that resolves named
object references; the environment is what lets a self-referential type
graph be represented, mirroring the object identity the real checker gives
out.  The emitted syntax nodes (`ts.createObjectLiteral`,
`ts.createArrayLiteral`, `ts.createLiteral`) are modelled by `Expr`;
JavaScript numbers are carried as their source text, since no claim
computes with a numeric value.  Recursion is made total by a fuel counter
that decreases on every recursive `parseType` call; `PRes.fuelOut` marks a
computation whose recursion depth exceeds the fuel, `PRes.thrown` models a
thrown JavaScript exception, and `PRes.ok` carries the produced expression
together with the History array after the call (the source mutates the
single shared `history` array in place; the embedding threads it through
explicitly).
-/

/-- A literal value handed to `ts.createLiteral`: a string, a number
(kept as its source text) or a boolean. -/
inductive LitVal where
  | str (s : String)
  | num (repr : String)
  | bool (b : Bool)
deriving DecidableEq, Repr

/-- The expression nodes the transformer emits: literals, object literals
(ordered lists of property assignments) and array literals. -/
inductive Expr where
  | str (s : String)
  | num (repr : String)
  | bool (b : Bool)
  | obj (props : List (String × Expr))
  | arr (elems : List Expr)
deriving Repr

/-- Embeds `ts.createLiteral` on a literal value. -/
def litToExpr : LitVal → Expr
  | .str s => .str s
  | .num r => .num r
  | .bool b => .bool b

/-- A JSDoc tag as returned by `getJsDocTags`: a tag name and optional text. -/
structure DocTag where
  name : String
  text : Option String
deriving DecidableEq, Repr

/-- The `objectFlags` cases the simplified variant discriminates with `===`:
`ts.ObjectFlags.Interface`, `ts.ObjectFlags.Reference`, or anything else. -/
inductive OFlag where
  | interfaceO
  | referenceO
  | otherO
deriving DecidableEq, Repr

mutual
/-- A type descriptor, as the checker oracle presents it to `parseType`.
Constructors follow the flag classes the dispatch tests:
`prim` covers `StringLike`/`NumberLike`/`BooleanLike`/`Any` (with the
literal value when the `Literal` flag is set and the type has a `value`
member), `boolLit` is a boolean literal type (`Literal` flag, no `value`,
only an `intrinsicName`), then `Null`/`Undefined`/`Never`, object types,
unions, intersections (carrying the `symbol`/`aliasSymbol` JSDoc tags that
`parseIntersection` reads), enum-like types (carrying the members' `value`s)
and `otherT` for every kind the dispatch does not recognise (void, unknown,
type parameters, ...).  `objRef` is an object type referenced by name and
resolved through a `TyEnv`; it is how a cyclic type graph is written down. -/
inductive Ty where
  | prim (display : String) (lit : Option LitVal)
  | boolLit (b : Bool)
  | nullT
  | undefinedT
  | neverT
  | obj (o : ObjTy)
  | objRef (key : String)
  | union (ms : List Ty)
  | inter (ms : List Ty) (symbolTags aliasTags : List DocTag)
  | enumT (vals : List LitVal)
  | otherT (display : String)

/-- The oracle data of an object-flagged type: `symbol?.name`, the
`isArrayType` answer, the first type argument (`typeArguments[0]`, the
array element type when present), whether a numeric or string index
signature exists, the member list from `getPropertiesOfType`, the JSDoc
tags of `symbol` and `aliasSymbol` (empty when the symbol is absent) and
the `objectFlags` class. -/
inductive ObjTy where
  | mk (name : Option String) (isArray : Bool) (arrayElem : Option Ty)
       (indexSig : Bool) (props : List PropSig)
       (symbolTags aliasTags : List DocTag) (oflags : OFlag)

/-- One property symbol: its name, whether it has a (nonempty) declaration
list, whether that declaration carries a question token, whether the symbol
has a `type` field, the property's type (`getTypeOfSymbolAtLocation`, or
`symbol.type` when there is no declaration) and its JSDoc tags. -/
inductive PropSig where
  | mk (name : String) (hasDecl : Bool) (question : Bool)
      (hasTyField : Bool) (ty : Ty) (tags : List DocTag)
end

def ObjTy.name : ObjTy → Option String
  | .mk n _ _ _ _ _ _ _ => n

def ObjTy.isArray : ObjTy → Bool
  | .mk _ a _ _ _ _ _ _ => a

def ObjTy.arrayElem : ObjTy → Option Ty
  | .mk _ _ e _ _ _ _ _ => e

def ObjTy.indexSig : ObjTy → Bool
  | .mk _ _ _ i _ _ _ _ => i

def ObjTy.props : ObjTy → List PropSig
  | .mk _ _ _ _ ps _ _ _ => ps

def ObjTy.symbolTags : ObjTy → List DocTag
  | .mk _ _ _ _ _ s _ _ => s

def ObjTy.aliasTags : ObjTy → List DocTag
  | .mk _ _ _ _ _ _ a _ => a

def ObjTy.oflags : ObjTy → OFlag
  | .mk _ _ _ _ _ _ _ f => f

def PropSig.name : PropSig → String
  | .mk n _ _ _ _ _ => n

def PropSig.hasDecl : PropSig → Bool
  | .mk _ d _ _ _ _ => d

def PropSig.question : PropSig → Bool
  | .mk _ _ q _ _ _ => q

def PropSig.hasTyField : PropSig → Bool
  | .mk _ _ _ t _ _ => t

def PropSig.ty : PropSig → Ty
  | .mk _ _ _ _ t _ => t

def PropSig.tags : PropSig → List DocTag
  | .mk _ _ _ _ _ tg => tg

/-- The environment resolving named object references: the checker's table
of interned object types. -/
abbrev TyEnv : Type := String → ObjTy

/-- One resolution step: a named reference becomes the object type the
checker holds for it; every other descriptor is already concrete. -/
def resolveTy (env : TyEnv) : Ty → Ty
  | .objRef k => .obj (env k)
  | t => t

/-- The History array: the stack of symbol names pushed by `parseType`'s
object branch.  A JavaScript `string | undefined` entry is an
`Option String`; `push` appends at the end, `pop` drops the last entry and
is a no-op on an empty array, exactly like `Array.prototype.pop`. -/
abbrev Hist : Type := List (Option String)

/-- The oracle's `tc.typeToString`, modelled as the oracle's display of a descriptor.
Only two uses matter to the source: comparing against the exact text
`"undefined"` in `parseUnion`'s filter and against `"false"` for boolean
literals; object-like kinds display as their symbol name (or the anonymous
`__type`). -/
def typeToString (env : TyEnv) : Ty → String
  | .prim d none => d
  | .prim _ (some (.str s)) => "\"" ++ s ++ "\""
  | .prim _ (some (.num r)) => r
  | .prim _ (some (.bool b)) => cond b "true" "false"
  | .boolLit b => cond b "true" "false"
  | .nullT => "null"
  | .undefinedT => "undefined"
  | .neverT => "never"
  | .obj o => (ObjTy.name o).getD "__type"
  | .objRef k => (ObjTy.name (env k)).getD "__type"
  | .union _ => "(union)"
  | .inter _ _ _ => "(intersection)"
  | .enumT _ => "(enum)"
  | .otherT d => d

/-- Whether the `ts.TypeFlags.BooleanLiteral` bit is set. -/
def isBooleanLiteral : Ty → Bool
  | .boolLit _ => true
  | _ => false

/-- Whether the `ts.TypeFlags.Literal` bit is set. -/
def isLiteral : Ty → Bool
  | .boolLit _ => true
  | .prim _ (some _) => true
  | _ => false

/-- The `value` member read by the literal branches (`undefined` for types
that have none; that case is unreachable behind the `Literal` guards). -/
def tsValue : Ty → Expr
  | .prim _ (some v) => litToExpr v
  | _ => .str "undefined"

/-- The fixed `predefined` marker table of the full variant. -/
def predefined : List (String × String) :=
  [("IDate", "date"), ("IEmail", "email"), ("IForbidden", "forbidden"),
   ("IUrl", "url"), ("IUUID", "uuid")]

/-- The lookup `predefined[name]` (with `name` possibly `undefined`). -/
def predefinedLookup (n : Option String) : Option String :=
  n.bind fun s => (predefined.find? fun p => p.1 = s).map Prod.snd

/-- Outcome of a parsing function of the full variant: out of fuel, a
thrown JavaScript exception, or a produced expression together with the
History array as the call leaves it. -/
inductive PRes where
  | fuelOut
  | thrown (msg : String)
  | ok (e : Expr) (hist : Hist)
deriving Repr

/-- The type of the recursive `parseType` reference the helper functions
call back into. -/
abbrev RecFn : Type := Ty → Nat → Hist → Bool → Bool → PRes

/-- Truthiness of a JSDoc tag's `text` (both `undefined` and the empty
string are falsy). -/
def docTextTruthy : Option String → Bool
  | some s => s != ""
  | none => false

/-- Decimal digit test for the number pattern. -/
def isDigitCh (c : Char) : Bool := '0' ≤ c && c ≤ '9'

/-- The unsigned part of the number pattern: `[0-9]+([.][0-9]*)?` or
`[.][0-9]+`, anchored to consume the whole list. -/
def numBodyTest : List Char → Bool
  | [] => false
  | c :: tl =>
    if c = '.' then !tl.isEmpty && tl.all isDigitCh
    else
      let ds := (c :: tl).takeWhile isDigitCh
      let rest := (c :: tl).dropWhile isDigitCh
      !ds.isEmpty &&
        (rest.isEmpty ||
          (match rest with
           | '.' :: tl2 => tl2.all isDigitCh
           | _ => false))

/-- The full variant's number pattern
`/^[+-]?([0-9]+([.][0-9]*)?|[.][0-9]+)$/` as an executable test: an
optional leading sign, then the unsigned body. -/
def numberRegexTest (s : String) : Bool :=
  match s.data with
  | [] => false
  | c :: rest =>
    if c = '+' || c = '-' then numBodyTest rest
    else numBodyTest (c :: rest)

/-- The full variant's tag-text coercion: the exact texts `"true"` and
`"false"` become booleans, a text matching the number pattern becomes a
number (`Number(value)`, carried as its text), anything else stays a
string. -/
def coerceTag (s : String) : Expr :=
  if s = "true" then .bool true
  else if s = "false" then .bool false
  else if numberRegexTest s then .num s
  else .str s

namespace Full

/-- The full variant's `parseJSDoc`: keep the tags with truthy text and
coerce each text. -/
def parseJSDoc (docs : List DocTag) : List (String × Expr) :=
  (docs.filter fun d => docTextTruthy d.text).map
    fun d => (d.name, coerceTag (d.text.getD ""))

/-- Source helper `addProperty(object, name, value)`: append one assignment to an object
literal; reading `.properties` of an array literal is a JavaScript
`TypeError`, modelled as `none`. -/
def addProperty (e : Expr) (n : String) (v : Expr) : Option Expr :=
  match e with
  | .obj ps => some (.obj (ps ++ [(n, v)]))
  | _ => none

/-- Source helper `addProperties(object, combined_properties)`: the already-collected
assignments come first, the object's own assignments are appended after. -/
def addProperties (e : Expr) (combined : List (String × Expr)) : Option Expr :=
  match e with
  | .obj ps => some (.obj (combined ++ ps))
  | _ => none

/-- The full variant's `parsePrimitive`: literal types become one-value enums (boolean
literals through their `intrinsicName`), other primitives display through
`typeToString`; `optional: true` comes first when the flag is set. -/
def parsePrimitive (env : TyEnv) (t : Ty) (optional : Bool) : Expr :=
  let props : List (String × Expr) :=
    if optional then [("optional", .bool true)] else []
  match t with
  | .boolLit b =>
      .obj (props ++ [("type", .str "enum"), ("values", .arr [.bool b])])
  | .prim _ (some v) =>
      .obj (props ++ [("type", .str "enum"), ("values", .arr [litToExpr v])])
  | t' => .obj (props ++ [("type", .str (typeToString env t'))])

/-- The full variant's `parseEnum`: collect the members' literal values. -/
def parseEnum (vals : List LitVal) (optional : Bool) : Expr :=
  .obj ((if optional then [("optional", .bool true)] else []) ++
        [("type", .str "enum"), ("values", .arr (vals.map litToExpr))])

/-- The full variant's `parseArray`: emit `type: "array"`, recursing into
`typeArguments[0]` when present; the recursive call passes neither the
`additional` nor the `optional` argument (both `undefined`, hence falsy). -/
def parseArray (rec : RecFn) (o : ObjTy) (depth : Nat) (h : Hist)
    (optional : Bool) : PRes :=
  let props : List (String × Expr) :=
    if optional then [("optional", .bool true)] else []
  match o.arrayElem with
  | some elemTy =>
    match rec elemTy depth h false false with
    | .fuelOut => .fuelOut
    | .thrown m => .thrown m
    | .ok e h' =>
        .ok (.obj (props ++ [("type", .str "array"), ("items", e)])) h'
  | none => .ok (.obj (props ++ [("type", .str "array")])) h

/-- The filter of `parseUnion`: boolean-literal members are kept only the
first time (`firstBoolean`), a member displaying as `undefined` is dropped
and sets `unionOptional`, every other member is kept.  Returns the kept
members and the `unionOptional` flag. -/
def unionFilter (env : TyEnv) : List Ty → Bool → Bool → (List Ty × Bool)
  | [], _, uo => ([], uo)
  | t :: ts, firstBool, uo =>
    if isBooleanLiteral t then
      if firstBool then
        let (r, uo') := unionFilter env ts false uo
        (t :: r, uo')
      else unionFilter env ts firstBool uo
    else if typeToString env t ≠ "undefined" then
      let (r, uo') := unionFilter env ts firstBool uo
      (t :: r, uo')
    else unionFilter env ts firstBool true

/-- The member map of `parseUnion`'s general branch: boolean literals
become `{type: "boolean"}`, other members recurse (with the `optional`
argument omitted); the shared History threads through the member list. -/
def unionMap (rec : RecFn) : List Ty → Nat → Hist → Bool →
    Option (Sum String (List Expr × Hist))
  | [], _, h, _ => some (.inr ([], h))
  | t :: ts, depth, h, additional =>
    if isBooleanLiteral t then
      match unionMap rec ts depth h additional with
      | none => none
      | some (.inl m) => some (.inl m)
      | some (.inr (es, h')) =>
          some (.inr (Expr.obj [("type", .str "boolean")] :: es, h'))
    else
      match rec t depth h additional false with
      | .fuelOut => none
      | .thrown m => some (.inl m)
      | .ok e h' =>
        match unionMap rec ts depth h' additional with
        | none => none
        | some (.inl m) => some (.inl m)
        | some (.inr (es, h'')) => some (.inr (e :: es, h''))

/-- Source line `mapped_types.map(type => addProperty(type, ..., true))`. -/
def addOptionalAll : List Expr → Option (List Expr)
  | [] => some []
  | e :: es =>
    match addProperty e "optional" (.bool true), addOptionalAll es with
    | some e', some es' => some (e' :: es')
    | _, _ => none

/-- The full variant's `parseUnion`. -/
def parseUnion (env : TyEnv) (rec : RecFn) (ms : List Ty) (depth : Nat)
    (h : Hist) (additional optional : Bool) : PRes :=
  let fr := unionFilter env ms true false
  let types := fr.1
  let unionOptional := fr.2
  match types with
  | [t] =>
    if isBooleanLiteral t then
      if optional || unionOptional then
        .ok (.obj [("type", .str "boolean"), ("optional", .bool true)]) h
      else .ok (.obj [("type", .str "boolean")]) h
    else rec t depth h additional (unionOptional || optional)
  | _ =>
    let literals := (!types.isEmpty) && types.all isLiteral
    if literals then
      let values := types.map fun t =>
        if isBooleanLiteral t then
          if typeToString env t = "false" then Expr.bool false
          else Expr.bool true
        else tsValue t
      .ok (.obj ((if optional || unionOptional then
                    [("optional", Expr.bool true)] else []) ++
                 [("type", .str "enum"), ("values", .arr values)])) h
    else
      match unionMap rec types depth h additional with
      | none => .fuelOut
      | some (.inl m) => .thrown m
      | some (.inr (mapped, h')) =>
        if optional || unionOptional then
          match addOptionalAll mapped with
          | none => .thrown "TypeError"
          | some mapped' => .ok (.arr mapped') h'
        else .ok (.arr mapped) h'

/-- The member map of `parseIntersection`, threading History. -/
def interMap (rec : RecFn) : List Ty → Nat → Hist → Bool →
    Option (Sum String (List Expr × Hist))
  | [], _, h, _ => some (.inr ([], h))
  | t :: ts, depth, h, additional =>
    match rec t depth h additional false with
    | .fuelOut => none
    | .thrown m => some (.inl m)
    | .ok e h' =>
      match interMap rec ts depth h' additional with
      | none => none
      | some (.inl m) => some (.inl m)
      | some (.inr (es, h'')) => some (.inr (e :: es, h''))

/-- Collect the entries of one member's `props` object, skipping names
already seen (`unique`). -/
def dedupAdd : List (String × Expr) → List String → List (String × Expr) →
    (List (String × Expr) × List String)
  | [], u, acc => (acc, u)
  | (n, v) :: rest, u, acc =>
    if n ∈ u then dedupAdd rest u acc
    else dedupAdd rest (u ++ [n]) (acc ++ [(n, v)])

/-- Walk one member result's assignments looking for the `props` key and
collect its entries; reading `.properties` of a non-object `props` value
is a JavaScript `TypeError` (`none`). -/
def collectFromEntries : List (String × Expr) → List String →
    List (String × Expr) → Option (List (String × Expr) × List String)
  | [], u, acc => some (acc, u)
  | (n, v) :: rest, u, acc =>
    if n = "props" then
      match v with
      | .obj inner =>
        let r := dedupAdd inner u acc
        collectFromEntries rest r.2 r.1
      | _ => none
    else collectFromEntries rest u acc

/-- Walk the (already reversed) member results; a member that is an array
literal has no `.properties` and raises a `TypeError` (`none`). -/
def collectProps : List Expr → List String → List (String × Expr) →
    Option (List (String × Expr) × List String)
  | [], u, acc => some (acc, u)
  | .obj ps :: rest, u, acc =>
    match collectFromEntries ps u acc with
    | none => none
    | some (acc', u') => collectProps rest u' acc'
  | _ :: _, _, _ => none

/-- The full variant's `parseIntersection`: parse every member, collect
the `props` mappings in reverse order with first-seen-wins de-duplication,
wrap when `depth > 1`, then append the intersection's own JSDoc keys when
`additional`. -/
def parseIntersection (env : TyEnv) (rec : RecFn) (ms : List Ty)
    (symbolTags aliasTags : List DocTag) (depth : Nat) (h : Hist)
    (additional : Bool) : PRes :=
  match interMap rec ms depth h additional with
  | none => .fuelOut
  | some (.inl m) => .thrown m
  | some (.inr (results, h')) =>
    match collectProps results.reverse [] [] with
    | none => .thrown "TypeError"
    | some (combined, _) =>
      let core : List (String × Expr) :=
        if depth > 1 then
          [("type", .str "object"), ("props", .obj combined)]
        else combined
      let docs := symbolTags ++ aliasTags
      let final := core ++
        (if additional && !docs.isEmpty then parseJSDoc docs else [])
      .ok (.obj final) h'

/-- The property map of `parseInterface`: parse each property's type (the
locally shadowed `optional` is the declaration's question token, or
`undefined` when there is no declaration), attach `optional: true` when the
parsed node is an object literal, attach the property's JSDoc keys (placed
before the node's own assignments, as `addProperties` does) when
`additional`, then pop the shared History once. -/
def interfaceProps (rec : RecFn) : List PropSig → Nat → Hist → Bool →
    Option (Sum String (List (String × Expr) × Hist))
  | [], _, h, _ => some (.inr ([], h))
  | p :: ps, depth, h, additional =>
    let optP := if p.hasDecl then p.question else false
    match rec p.ty depth h additional optP with
    | .fuelOut => none
    | .thrown m => some (.inl m)
    | .ok parsed h1 =>
      let parsed1 :=
        if optP then
          match addProperty parsed "optional" (.bool true) with
          | some e => e
          | none => parsed
        else parsed
      let parsed2 :=
        if additional && !p.tags.isEmpty then
          match addProperties parsed1 (parseJSDoc p.tags) with
          | some e => e
          | none => parsed1
        else parsed1
      let h2 := h1.dropLast
      match interfaceProps rec ps depth h2 additional with
      | none => none
      | some (.inl m) => some (.inl m)
      | some (.inr (pas, hF)) => some (.inr ((p.name, parsed2) :: pas, hF))

/-- The full variant's `parseInterface`: filter the properties, map them
(popping History once per property), special-case the empty result (one
more pop), wrap in `type`/`props` when `depth > 1`, append the type's own
JSDoc keys when `additional`, append `optional: true` when the context
flag is set, and pop History once more at the end. -/
def parseInterface (env : TyEnv) (rec : RecFn) (o : ObjTy) (depth : Nat)
    (h : Hist) (additional optional : Bool) : PRes :=
  let properties := o.props.filter fun p => p.hasDecl || p.hasTyField
  match interfaceProps rec properties depth h additional with
  | none => .fuelOut
  | some (.inl m) => .thrown m
  | some (.inr (pas, h1)) =>
    if pas.isEmpty then .ok (.obj []) h1.dropLast
    else
      let core : List (String × Expr) :=
        if depth > 1 then
          [("type", .str "object"), ("props", .obj pas)]
        else pas
      let docs := o.symbolTags ++ o.aliasTags
      let withDocs := core ++
        (if additional && !docs.isEmpty then parseJSDoc docs else [])
      let final := withDocs ++
        (if optional then [("optional", Expr.bool true)] else [])
      .ok (.obj final) h1.dropLast

/-- The full variant's `parseType`.  Fuel decreases on every recursive
call; the dispatch follows the source order: primitive-like flags, then
`Null`/`Undefined`/`Never`, then `Object` (predefined marker table, array
test, index signatures, the History guard and push, then the interface
rule), then `Union`, `Intersection`, `EnumLike`, and finally
`throw new Error("Unknown type")`. -/
def parseType (env : TyEnv) : Nat → Ty → Nat → Hist → Bool → Bool → PRes
  | 0, _, _, _, _, _ => .fuelOut
  | fuel + 1, t0, depth, history, additional, optional =>
    let recur : RecFn := parseType env fuel
    match resolveTy env t0 with
    | .prim d lit => .ok (parsePrimitive env (.prim d lit) optional) history
    | .boolLit b => .ok (parsePrimitive env (.boolLit b) optional) history
    | .nullT => .ok (.obj [("type", .str "forbidden")]) history
    | .undefinedT => .ok (.obj [("type", .str "forbidden")]) history
    | .neverT => .ok (.obj [("type", .str "forbidden")]) history
    | .obj o =>
      let name := o.name
      match predefinedLookup name with
      | some mapped => .ok (.obj [("type", .str mapped)]) history
      | none =>
        if o.isArray then parseArray recur o (depth + 1) history optional
        else if o.indexSig then
          .ok (.obj [("type", .str "object")]) history
        else if name ∈ history then
          .ok (.obj [("type", .str "any")]) history
        else
          let history' :=
            if name ≠ some "__type" ∧ name ≠ some "Array" then
              history ++ [name]
            else history
          parseInterface env recur o (depth + 1) history' additional optional
    | .union ms =>
        parseUnion env recur ms (depth + 1) history additional optional
    | .inter ms sTags aTags =>
        parseIntersection env recur ms sTags aTags (depth + 1) history
          additional
    | .enumT vals => .ok (parseEnum vals optional) history
    | .otherT _ => .thrown "Unknown type"
    | .objRef _ => .thrown "Unknown type"

end Full

namespace Simple

/-- Outcome of the simplified variant's parsing functions: the variant
neither mutates a History array nor throws deliberately, but member
iteration can still raise a JavaScript `TypeError`. -/
inductive SRes where
  | fuelOut
  | thrown (msg : String)
  | ok (e : Expr)
deriving Repr

/-- The simplified variant's `parsePrimitive`: always the display string,
with no literal handling. -/
def parsePrimitive (env : TyEnv) (t : Ty) : Expr :=
  .obj [("type", .str (typeToString env t))]

/-- The simplified variant's `parseEnum`. -/
def parseEnum (vals : List LitVal) : Expr :=
  .obj [("type", .str "enum"), ("values", .arr (vals.map litToExpr))]

/-- The simplified variant's `parseArray`: the element type is never
inspected. -/
def parseArray : Expr := .obj [("type", .str "array")]

/-- The member handling of the simplified `parseUnion`: drop members
displaying as `undefined`, map boolean literals to `{type: "boolean"}` and
recurse on everything else. -/
def unionMembers (env : TyEnv) (recur : Ty → SRes) :
    List Ty → Option (Sum String (List Expr))
  | [] => some (.inr [])
  | t :: ts =>
    if typeToString env t ≠ "undefined" then
      let head :=
        if isBooleanLiteral t then SRes.ok (.obj [("type", .str "boolean")])
        else recur t
      match head with
      | .fuelOut => none
      | .thrown m => some (.inl m)
      | .ok e =>
        match unionMembers env recur ts with
        | none => none
        | some (.inl m) => some (.inl m)
        | some (.inr es) => some (.inr (e :: es))
    else unionMembers env recur ts

/-- The member map and concatenation of the simplified
`parseIntersection`: every assignment of every member result is pushed in
order; a member result that is an array literal has no `.properties` and
raises a `TypeError`. -/
def interConcat (recur : Ty → SRes) : List Ty →
    Option (Sum String (List (String × Expr)))
  | [] => some (.inr [])
  | t :: ts =>
    match recur t with
    | .fuelOut => none
    | .thrown m => some (.inl m)
    | .ok (.obj ps) =>
      match interConcat recur ts with
      | none => none
      | some (.inl m) => some (.inl m)
      | some (.inr rest) => some (.inr (ps ++ rest))
    | .ok _ => some (.inl "TypeError")

/-- The simplified variant's tag-text coercion: `"true"`/`"false"` become
booleans, a text of decimal digits only (`/^\d+$/`) goes through
`parseInt`, anything else stays a string. -/
def coerceTagS (s : String) : Expr :=
  if s = "true" then .bool true
  else if s = "false" then .bool false
  else if !s.isEmpty && s.data.all isDigitCh then .num s
  else .str s

/-- The doc-tag fold of the simplified `parseInterface`: each tag with
truthy text appends one coerced assignment to the node. -/
def applyDocs (e : Expr) : List DocTag → Expr
  | [] => e
  | d :: ds =>
    match d.text with
    | some s =>
      if s ≠ "" then
        match e with
        | .obj ps => applyDocs (.obj (ps ++ [(d.name, coerceTagS s)])) ds
        | _ => applyDocs e ds
      else applyDocs e ds
    | none => applyDocs e ds

/-- The property map of the simplified `parseInterface`: parse the
property's type (always through `declarations[0]`; a property without
declarations raises a `TypeError` in the filter), attach `optional: true`
when the declaration has a question token and the node is an object
literal, then apply the doc tags when the node is an object literal. -/
def interfaceProps (recur : Ty → SRes) : List PropSig →
    Option (Sum String (List (String × Expr)))
  | [] => some (.inr [])
  | p :: ps =>
    if !p.hasDecl then some (.inl "TypeError")
    else
      match recur p.ty with
      | .fuelOut => none
      | .thrown m => some (.inl m)
      | .ok parsed =>
        let parsed1 :=
          match parsed, p.question with
          | .obj l, true => Expr.obj (l ++ [("optional", .bool true)])
          | _, _ => parsed
        let parsed2 :=
          if !p.tags.isEmpty then
            match parsed1 with
            | .obj _ => applyDocs parsed1 p.tags
            | _ => parsed1
          else parsed1
        match interfaceProps recur ps with
        | none => none
        | some (.inl m) => some (.inl m)
        | some (.inr pas) => some (.inr ((p.name, parsed2) :: pas))

/-- The simplified variant's `parseType` (`src/transformer.ts`): literal
and primitive flags display through `typeToString`; `Null`/`Undefined`
yield an empty literal; an object type is only handled when its
`objectFlags` are exactly `Interface` (interface rule) or exactly
`Reference` (array rule) and otherwise falls through; unions map to an
array literal; intersections concatenate every member assignment; enums
collect values; everything unmatched reaches the final
`return ts.createObjectLiteral()`. -/
def parseType (env : TyEnv) : Nat → Ty → SRes
  | 0, _ => .fuelOut
  | fuel + 1, t0 =>
    let recur := parseType env fuel
    match resolveTy env t0 with
    | .prim d lit => .ok (parsePrimitive env (.prim d lit))
    | .boolLit b => .ok (parsePrimitive env (.boolLit b))
    | .nullT => .ok (.obj [])
    | .undefinedT => .ok (.obj [])
    | .neverT => .ok (.obj [])
    | .obj o =>
      match o.oflags with
      | .interfaceO =>
        match interfaceProps recur (o.props.filter fun p => p.hasDecl) with
        | none => .fuelOut
        | some (.inl m) => .thrown m
        | some (.inr pas) => .ok (.obj pas)
      | .referenceO => .ok parseArray
      | .otherO => .ok (.obj [])
    | .union ms =>
      match unionMembers env recur ms with
      | none => .fuelOut
      | some (.inl m) => .thrown m
      | some (.inr es) => .ok (.arr es)
    | .inter ms _ _ =>
      match interConcat recur ms with
      | none => .fuelOut
      | some (.inl m) => .thrown m
      | some (.inr combined) => .ok (.obj combined)
    | .enumT vals => .ok (parseEnum vals)
    | .otherT _ => .ok (.obj [])
    | .objRef _ => .ok (.obj [])

end Simple

/-!
Doc-tag erasure.  `eraseTy` removes every JSDoc tag occurring anywhere in a
descriptor (property tags, symbol tags, alias-symbol tags), recursively.
`eraseEnv` does the same to every object the environment resolves to.
Proving the parse result invariant under erasure when `additional` is
`false` shows that no doc-comment-derived key can reach the output. -/

mutual
def eraseTy : Ty → Ty
  | .prim d l => .prim d l
  | .boolLit b => .boolLit b
  | .nullT => .nullT
  | .undefinedT => .undefinedT
  | .neverT => .neverT
  | .obj o => .obj (eraseObj o)
  | .objRef k => .objRef k
  | .union ms => .union (ms.attach.map fun x => eraseTy x.1)
  | .inter ms _ _ => .inter (ms.attach.map fun x => eraseTy x.1) [] []
  | .enumT v => .enumT v
  | .otherT d => .otherT d
termination_by t => sizeOf t
decreasing_by
  all_goals simp_wf
  all_goals try omega
  all_goals (have hmem := List.sizeOf_lt_of_mem x.2; omega)

def eraseObj : ObjTy → ObjTy
  | .mk n a none i ps _ _ f =>
    .mk n a none i (ps.attach.map fun x => erasePropSig x.1) [] [] f
  | .mk n a (some t) i ps _ _ f =>
    .mk n a (some (eraseTy t)) i (ps.attach.map fun x => erasePropSig x.1)
      [] [] f
termination_by o => sizeOf o
decreasing_by
  all_goals simp_wf
  all_goals try omega
  all_goals (have hmem := List.sizeOf_lt_of_mem x.2; omega)

def erasePropSig : PropSig → PropSig
  | .mk n d q h t _ => .mk n d q h (eraseTy t) []
termination_by p => sizeOf p
decreasing_by
  all_goals simp_wf
  all_goals omega
end

/-- Erase every doc tag in the environment's objects. -/
def eraseEnv (env : TyEnv) : TyEnv := fun k => eraseObj (env k)

@[simp] theorem eraseTy_union (ms : List Ty) :
    eraseTy (.union ms) = .union (ms.map eraseTy) := by
  unfold eraseTy
  rw [List.attach_map_val]

@[simp] theorem eraseTy_inter (ms : List Ty) (s a : List DocTag) :
    eraseTy (.inter ms s a) = .inter (ms.map eraseTy) [] [] := by
  unfold eraseTy
  rw [List.attach_map_val]

@[simp] theorem eraseObj_mk (n a e i ps s al f) :
    eraseObj (.mk n a e i ps s al f) =
      .mk n a (e.map eraseTy) i (ps.map erasePropSig) [] [] f := by
  cases e <;> unfold eraseObj <;> rw [List.attach_map_val] <;> rfl

@[simp] theorem eraseTy_prim (d l) : eraseTy (.prim d l) = .prim d l := by
  unfold eraseTy
  rfl

@[simp] theorem eraseTy_boolLit (b) : eraseTy (.boolLit b) = .boolLit b := by
  unfold eraseTy
  rfl

@[simp] theorem eraseTy_nullT : eraseTy .nullT = .nullT := by
  unfold eraseTy
  rfl

@[simp] theorem eraseTy_undefinedT : eraseTy .undefinedT = .undefinedT := by
  unfold eraseTy
  rfl

@[simp] theorem eraseTy_neverT : eraseTy .neverT = .neverT := by
  unfold eraseTy
  rfl

@[simp] theorem eraseTy_obj (o) : eraseTy (.obj o) = .obj (eraseObj o) := by
  unfold eraseTy
  rfl

@[simp] theorem eraseTy_objRef (k) : eraseTy (.objRef k) = .objRef k := by
  unfold eraseTy
  rfl

@[simp] theorem eraseTy_enumT (v) : eraseTy (.enumT v) = .enumT v := by
  unfold eraseTy
  rfl

@[simp] theorem eraseTy_otherT (d) : eraseTy (.otherT d) = .otherT d := by
  unfold eraseTy
  rfl

@[simp] theorem erasePropSig_mk (n d q h t tg) :
    erasePropSig (.mk n d q h t tg) = .mk n d q h (eraseTy t) [] := by
  unfold erasePropSig
  rfl

@[simp] theorem eraseObj_name (o : ObjTy) : (eraseObj o).name = o.name := by
  cases o
  simp [ObjTy.name]

@[simp] theorem eraseObj_isArray (o : ObjTy) :
    (eraseObj o).isArray = o.isArray := by
  cases o
  simp [ObjTy.isArray]

@[simp] theorem eraseObj_indexSig (o : ObjTy) :
    (eraseObj o).indexSig = o.indexSig := by
  cases o
  simp [ObjTy.indexSig]

@[simp] theorem eraseObj_arrayElem (o : ObjTy) :
    (eraseObj o).arrayElem = o.arrayElem.map eraseTy := by
  cases o
  simp [ObjTy.arrayElem]

@[simp] theorem eraseObj_props (o : ObjTy) :
    (eraseObj o).props = o.props.map erasePropSig := by
  cases o
  simp [ObjTy.props]

@[simp] theorem erasePropSig_name (p : PropSig) :
    (erasePropSig p).name = p.name := by
  cases p
  simp [PropSig.name]

@[simp] theorem erasePropSig_hasDecl (p : PropSig) :
    (erasePropSig p).hasDecl = p.hasDecl := by
  cases p
  simp [PropSig.hasDecl]

@[simp] theorem erasePropSig_question (p : PropSig) :
    (erasePropSig p).question = p.question := by
  cases p
  simp [PropSig.question]

@[simp] theorem erasePropSig_hasTyField (p : PropSig) :
    (erasePropSig p).hasTyField = p.hasTyField := by
  cases p
  simp [PropSig.hasTyField]

@[simp] theorem erasePropSig_ty (p : PropSig) :
    (erasePropSig p).ty = eraseTy p.ty := by
  cases p
  simp [PropSig.ty]

theorem typeToString_erase (env : TyEnv) (t : Ty) :
    typeToString (eraseEnv env) (eraseTy t) = typeToString env t := by
  cases t with
  | prim d l =>
    cases l with
    | none =>
      rw [eraseTy_prim]
      rfl
    | some v =>
      cases v <;> rw [eraseTy_prim] <;> rfl
  | obj o =>
    rw [eraseTy_obj]
    show ((eraseObj o).name).getD "__type" = (o.name).getD "__type"
    rw [eraseObj_name]
  | objRef k =>
    rw [eraseTy_objRef]
    show ((eraseEnv env k).name).getD "__type" = ((env k).name).getD "__type"
    show ((eraseObj (env k)).name).getD "__type" = ((env k).name).getD "__type"
    rw [eraseObj_name]
  | union ms =>
    rw [eraseTy_union]
    rfl
  | inter ms s a =>
    rw [eraseTy_inter]
    rfl
  | boolLit b =>
    rw [eraseTy_boolLit]
    rfl
  | nullT =>
    rw [eraseTy_nullT]
    rfl
  | undefinedT =>
    rw [eraseTy_undefinedT]
    rfl
  | neverT =>
    rw [eraseTy_neverT]
    rfl
  | enumT v =>
    rw [eraseTy_enumT]
    rfl
  | otherT d =>
    rw [eraseTy_otherT]
    rfl

theorem isBooleanLiteral_erase (t : Ty) :
    isBooleanLiteral (eraseTy t) = isBooleanLiteral t := by
  cases t <;> simp [isBooleanLiteral]

theorem isLiteral_erase (t : Ty) : isLiteral (eraseTy t) = isLiteral t := by
  cases t with
  | prim d l => cases l <;> simp [isLiteral]
  | _ => simp [isLiteral]

theorem tsValue_erase (t : Ty) : tsValue (eraseTy t) = tsValue t := by
  cases t with
  | prim d l => cases l <;> simp [tsValue]
  | _ => simp [tsValue]

theorem resolveTy_erase (env : TyEnv) (t : Ty) :
    resolveTy (eraseEnv env) (eraseTy t) = eraseTy (resolveTy env t) := by
  cases t <;> simp [resolveTy, eraseEnv]

@[simp] theorem erasePropSig_tags (p : PropSig) : (erasePropSig p).tags = [] := by
  cases p
  simp [PropSig.tags]

theorem unionFilter_erase (env : TyEnv) (ms : List Ty) :
    ∀ fb uo, Full.unionFilter (eraseEnv env) (ms.map eraseTy) fb uo =
      ((Full.unionFilter env ms fb uo).1.map eraseTy,
       (Full.unionFilter env ms fb uo).2) := by
  induction ms with
  | nil =>
    intro fb uo
    rfl
  | cons t ts ih =>
    intro fb uo
    simp only [List.map_cons, Full.unionFilter, isBooleanLiteral_erase,
      typeToString_erase, ih]
    split_ifs <;> simp [ih]

theorem all_isLiteral_map (ts : List Ty) :
    (ts.map eraseTy).all isLiteral = ts.all isLiteral := by
  induction ts with
  | nil => rfl
  | cons t ts ih => simp [List.all_cons, isLiteral_erase, ih]

theorem unionValues_erase (env : TyEnv) (ts : List Ty) :
    List.map (fun t => if isBooleanLiteral t then
        (if typeToString (eraseEnv env) t = "false" then Expr.bool false
         else Expr.bool true)
      else tsValue t) (ts.map eraseTy) =
    List.map (fun t => if isBooleanLiteral t then
        (if typeToString env t = "false" then Expr.bool false
         else Expr.bool true)
      else tsValue t) ts := by
  induction ts with
  | nil => rfl
  | cons t ts ih =>
    simp only [List.map_cons, isBooleanLiteral_erase, typeToString_erase,
      tsValue_erase, ih]

theorem parsePrimitive_erase (env : TyEnv) (t : Ty) (opt : Bool) :
    Full.parsePrimitive (eraseEnv env) (eraseTy t) opt =
    Full.parsePrimitive env t opt := by
  cases t with
  | prim d l =>
    rw [eraseTy_prim]
    cases l with
    | none => rfl
    | some v => rfl
  | boolLit b =>
    rw [eraseTy_boolLit]
    rfl
  | obj o =>
    rw [eraseTy_obj]
    show Expr.obj (_ ++ [("type", .str (typeToString (eraseEnv env) (.obj (eraseObj o))))]) = _
    have : typeToString (eraseEnv env) (.obj (eraseObj o)) =
        typeToString env (.obj o) := by
      rw [← eraseTy_obj, typeToString_erase]
    rw [this]
    rfl
  | objRef k =>
    rw [eraseTy_objRef]
    show Expr.obj (_ ++ [("type", .str (typeToString (eraseEnv env) (.objRef k)))]) = _
    have h1 := typeToString_erase env (.objRef k)
    rw [eraseTy_objRef] at h1
    rw [h1]
    rfl
  | union ms =>
    rw [eraseTy_union]
    show Expr.obj (_ ++ [("type", .str (typeToString (eraseEnv env) (.union (ms.map eraseTy))))]) = _
    rfl
  | inter ms s a =>
    rw [eraseTy_inter]
    rfl
  | enumT v =>
    rw [eraseTy_enumT]
    rfl
  | nullT =>
    rw [eraseTy_nullT]
    rfl
  | undefinedT =>
    rw [eraseTy_undefinedT]
    rfl
  | neverT =>
    rw [eraseTy_neverT]
    rfl
  | otherT d =>
    rw [eraseTy_otherT]
    rfl

theorem parseArray_erase (env : TyEnv) (rec1 rec2 : RecFn) (o : ObjTy)
    (d : Nat) (h : Hist) (opt : Bool)
    (hrec : ∀ t d h opt, rec2 (eraseTy t) d h false opt = rec1 t d h false opt) :
    Full.parseArray rec2 (eraseObj o) d h opt = Full.parseArray rec1 o d h opt := by
  unfold Full.parseArray
  rw [eraseObj_arrayElem]
  cases harr : o.arrayElem with
  | none => rfl
  | some e =>
    simp only [Option.map_some']
    rw [hrec]

theorem unionMap_erase (rec1 rec2 : RecFn)
    (hrec : ∀ t d h opt, rec2 (eraseTy t) d h false opt = rec1 t d h false opt)
    (ts : List Ty) :
    ∀ d h, Full.unionMap rec2 (ts.map eraseTy) d h false =
      Full.unionMap rec1 ts d h false := by
  induction ts with
  | nil =>
    intro d h
    rfl
  | cons t ts ih =>
    intro d h
    simp only [List.map_cons, Full.unionMap, isBooleanLiteral_erase, hrec, ih]

theorem interMap_erase (rec1 rec2 : RecFn)
    (hrec : ∀ t d h opt, rec2 (eraseTy t) d h false opt = rec1 t d h false opt)
    (ts : List Ty) :
    ∀ d h, Full.interMap rec2 (ts.map eraseTy) d h false =
      Full.interMap rec1 ts d h false := by
  induction ts with
  | nil =>
    intro d h
    rfl
  | cons t ts ih =>
    intro d h
    simp only [List.map_cons, Full.interMap, hrec, ih]

theorem interfaceProps_erase (rec1 rec2 : RecFn)
    (hrec : ∀ t d h opt, rec2 (eraseTy t) d h false opt = rec1 t d h false opt)
    (ps : List PropSig) :
    ∀ d h, Full.interfaceProps rec2 (ps.map erasePropSig) d h false =
      Full.interfaceProps rec1 ps d h false := by
  induction ps with
  | nil =>
    intro d h
    rfl
  | cons p ps ih =>
    intro d h
    simp only [List.map_cons, Full.interfaceProps, erasePropSig_hasDecl,
      erasePropSig_question, erasePropSig_ty, erasePropSig_name,
      erasePropSig_tags, hrec, ih, Bool.false_and, Bool.false_eq_true,
      if_false, List.isEmpty_nil]

theorem parseUnion_erase (env : TyEnv) (rec1 rec2 : RecFn)
    (hrec : ∀ t d h opt, rec2 (eraseTy t) d h false opt = rec1 t d h false opt)
    (ms : List Ty) (d : Nat) (h : Hist) (opt : Bool) :
    Full.parseUnion (eraseEnv env) rec2 (ms.map eraseTy) d h false opt =
    Full.parseUnion env rec1 ms d h false opt := by
  unfold Full.parseUnion
  rw [unionFilter_erase]
  cases hfr : Full.unionFilter env ms true false with
  | mk types uo =>
    cases types with
    | nil => rfl
    | cons t rest =>
      cases rest with
      | nil =>
        simp only [List.map_cons, List.map_nil, isBooleanLiteral_erase, hrec]
      | cons t2 rest2 =>
        simp only [List.map_cons, List.isEmpty_cons, List.all_cons]
        have hall := all_isLiteral_map (t :: t2 :: rest2)
        simp only [List.map_cons, List.all_cons] at hall
        rw [hall]
        have hvals := unionValues_erase env (t :: t2 :: rest2)
        simp only [List.map_cons] at hvals
        rw [hvals]
        have hum := unionMap_erase rec1 rec2 hrec (t :: t2 :: rest2) d h
        simp only [List.map_cons] at hum
        rw [hum]

theorem parseIntersection_erase (env : TyEnv) (rec1 rec2 : RecFn)
    (hrec : ∀ t d h opt, rec2 (eraseTy t) d h false opt = rec1 t d h false opt)
    (ms : List Ty) (sTags aTags : List DocTag) (d : Nat) (h : Hist) :
    Full.parseIntersection (eraseEnv env) rec2 (ms.map eraseTy) [] [] d h false =
    Full.parseIntersection env rec1 ms sTags aTags d h false := by
  unfold Full.parseIntersection
  rw [interMap_erase rec1 rec2 hrec]
  simp [Bool.false_and]

theorem parseInterface_erase (env : TyEnv) (rec1 rec2 : RecFn)
    (hrec : ∀ t d h opt, rec2 (eraseTy t) d h false opt = rec1 t d h false opt)
    (o : ObjTy) (d : Nat) (h : Hist) (opt : Bool) :
    Full.parseInterface (eraseEnv env) rec2 (eraseObj o) d h false opt =
    Full.parseInterface env rec1 o d h false opt := by
  unfold Full.parseInterface
  rw [eraseObj_props]
  have hpred : ((fun p => p.hasDecl || p.hasTyField) ∘ erasePropSig) =
      (fun (p : PropSig) => p.hasDecl || p.hasTyField) := by
    funext p
    simp [Function.comp]
  simp only [List.filter_map, hpred, interfaceProps_erase rec1 rec2 hrec,
    Bool.false_and, Bool.false_eq_true, if_false]

/-- With `additional` disabled, the full variant's output is unchanged by
erasing every JSDoc tag from the input descriptor and the environment: no
doc-comment-derived key can reach the output. -/
theorem parseType_erase (env : TyEnv) :
    ∀ (f : Nat) (t : Ty) (d : Nat) (h : Hist) (opt : Bool),
      Full.parseType (eraseEnv env) f (eraseTy t) d h false opt =
      Full.parseType env f t d h false opt := by
  intro f
  induction f with
  | zero =>
    intro t d h opt
    rfl
  | succ f ih =>
    intro t d h opt
    rw [Full.parseType, Full.parseType, resolveTy_erase]
    cases hrt : resolveTy env t with
    | prim d' l =>
      have hp := parsePrimitive_erase env (.prim d' l) opt
      rw [eraseTy_prim] at hp
      rw [eraseTy_prim]
      exact congrArg (fun e => PRes.ok e h) hp
    | boolLit b =>
      have hp := parsePrimitive_erase env (.boolLit b) opt
      rw [eraseTy_boolLit] at hp
      rw [eraseTy_boolLit]
      exact congrArg (fun e => PRes.ok e h) hp
    | nullT =>
      rw [eraseTy_nullT]
    | undefinedT =>
      rw [eraseTy_undefinedT]
    | neverT =>
      rw [eraseTy_neverT]
    | enumT v =>
      rw [eraseTy_enumT]
    | otherT d' =>
      rw [eraseTy_otherT]
    | objRef k =>
      rw [eraseTy_objRef]
    | union ms =>
      rw [eraseTy_union]
      exact parseUnion_erase env (Full.parseType env f)
        (Full.parseType (eraseEnv env) f) ih ms (d + 1) h opt
    | inter ms sTags aTags =>
      rw [eraseTy_inter]
      exact parseIntersection_erase env (Full.parseType env f)
        (Full.parseType (eraseEnv env) f) ih ms sTags aTags (d + 1) h
    | obj o =>
      rw [eraseTy_obj]
      simp only [eraseObj_name, eraseObj_isArray, eraseObj_indexSig]
      cases hp : predefinedLookup o.name with
      | some mapped => rfl
      | none =>
        cases harr : o.isArray with
        | true =>
          simp only [if_true]
          exact parseArray_erase env (Full.parseType env f)
            (Full.parseType (eraseEnv env) f) o (d + 1) h opt ih
        | false =>
          simp only [Bool.false_eq_true, if_false]
          cases hidx : o.indexSig with
          | true => rfl
          | false =>
            simp only [Bool.false_eq_true, if_false]
            by_cases hmem : o.name ∈ h
            · simp only [hmem, if_true]
            · simp only [hmem, if_false]
              exact parseInterface_erase env (Full.parseType env f)
                (Full.parseType (eraseEnv env) f) ih o (d + 1) _ opt

/-- The unsigned number pattern, stated declaratively: a nonempty digit
run, or a nonempty digit run followed by a dot and any digit run, or a dot
followed by a nonempty digit run. -/
def BodyPattern (body : List Char) : Prop :=
  (body ≠ [] ∧ ∀ c ∈ body, isDigitCh c) ∨
  (∃ ds fs, body = ds ++ '.' :: fs ∧ ds ≠ [] ∧
    (∀ c ∈ ds, isDigitCh c) ∧ (∀ c ∈ fs, isDigitCh c)) ∨
  (∃ fs, body = '.' :: fs ∧ fs ≠ [] ∧ ∀ c ∈ fs, isDigitCh c)

/-- The "signed decimal or integer pattern" of the spec, stated
declaratively: an optional single sign character, then the unsigned
pattern. -/
def SignedNumericText (s : String) : Prop :=
  ∃ sgn body, s.data = sgn ++ body ∧
    (sgn = [] ∨ sgn = ['+'] ∨ sgn = ['-']) ∧ BodyPattern body

theorem takeWhile_all_append (p : Char → Bool) (ds : List Char) (x : Char)
    (fs : List Char) (hds : ∀ c ∈ ds, p c = true) (hx : p x = false) :
    (ds ++ x :: fs).takeWhile p = ds ∧ (ds ++ x :: fs).dropWhile p = x :: fs := by
  induction ds with
  | nil => simp [List.takeWhile_cons, List.dropWhile_cons, hx]
  | cons c cs ih =>
    have hc := hds c (by simp)
    have ih' := ih fun c hmem => hds c (by simp [hmem])
    simp [List.takeWhile_cons, List.dropWhile_cons, hc, ih'.1, ih'.2]

theorem isDigitCh_ne_dot {c : Char} (h : isDigitCh c = true) : ¬ c = '.' := by
  intro he
  subst he
  simp [isDigitCh] at h

theorem numBodyTest_iff (body : List Char) :
    numBodyTest body = true ↔ BodyPattern body := by
  constructor
  · intro h
    cases body with
    | nil => simp [numBodyTest] at h
    | cons c tl =>
      by_cases hc : c = '.'
      · subst hc
        rw [numBodyTest, if_pos rfl] at h
        simp only [Bool.and_eq_true, Bool.not_eq_true'] at h
        refine Or.inr (Or.inr ⟨tl, rfl, ?_, ?_⟩)
        · intro he
          rw [he] at h
          simp at h
        · exact fun x hx => (List.all_eq_true.mp h.2) x hx
      · rw [numBodyTest, if_neg hc] at h
        simp only [Bool.and_eq_true, Bool.or_eq_true, Bool.not_eq_true'] at h
        obtain ⟨hds, hrest⟩ := h
        have hcd : isDigitCh c = true := by
          by_contra hcF
          rw [List.takeWhile_cons, if_neg hcF] at hds
          simp at hds
        have hsplit := List.takeWhile_append_dropWhile isDigitCh (c :: tl)
        cases hdw : (c :: tl).dropWhile isDigitCh with
        | nil =>
          refine Or.inl ⟨by simp, ?_⟩
          intro x hx
          exact List.mem_takeWhile_imp (by rw [hdw, List.append_nil] at hsplit; rw [hsplit]; exact hx)
        | cons r rtl =>
          cases hrest with
          | inl hre => rw [hdw] at hre; simp at hre
          | inr hre =>
            by_cases hr : r = '.'
            · subst hr
              refine Or.inr (Or.inl ⟨(c :: tl).takeWhile isDigitCh, rtl, ?_, ?_, ?_, ?_⟩)
              · rw [hdw] at hsplit
                exact hsplit.symm
              · rw [List.takeWhile_cons, if_pos hcd]
                simp
              · exact fun x hx => List.mem_takeWhile_imp hx
              · rw [hdw] at hre
                exact fun x hx => (List.all_eq_true.mp hre) x hx
            · rw [hdw] at hre
              exfalso
              revert hre
              cases hrr : r <;> simp_all
  · intro h
    cases h with
    | inl h1 =>
      obtain ⟨hne, hall⟩ := h1
      cases body with
      | nil => exact absurd rfl hne
      | cons c tl =>
        have hcd : isDigitCh c = true := hall c (by simp)
        rw [numBodyTest, if_neg (isDigitCh_ne_dot hcd)]
        have htw : (c :: tl).takeWhile isDigitCh = c :: tl :=
          List.takeWhile_eq_self_iff.mpr hall
        have hdw : (c :: tl).dropWhile isDigitCh = [] :=
          List.dropWhile_eq_nil_iff.mpr hall
        rw [htw, hdw]
        simp
    | inr h2 =>
      cases h2 with
      | inl halt2 =>
        obtain ⟨ds, fs, heq, hne, hds, hfs⟩ := halt2
        subst heq
        have hdot : isDigitCh '.' = false := by decide
        have hta := takeWhile_all_append isDigitCh ds '.' fs hds hdot
        cases ds with
        | nil => exact absurd rfl hne
        | cons d dtl =>
          have hdd : isDigitCh d = true := hds d (by simp)
          rw [show ((d :: dtl) ++ '.' :: fs) = d :: (dtl ++ '.' :: fs) by simp,
            numBodyTest, if_neg (isDigitCh_ne_dot hdd)]
          rw [show (d :: (dtl ++ '.' :: fs)) = ((d :: dtl) ++ '.' :: fs) by simp,
            hta.1, hta.2]
          simp only [Bool.and_eq_true, Bool.or_eq_true]
          refine ⟨by simp, Or.inr ?_⟩
          exact List.all_eq_true.mpr hfs
      | inr halt3 =>
        obtain ⟨fs, heq, hne, hfs⟩ := halt3
        subst heq
        rw [numBodyTest, if_pos rfl]
        simp only [Bool.and_eq_true, Bool.not_eq_true']
        refine ⟨?_, List.all_eq_true.mpr hfs⟩
        cases fs with
        | nil => exact absurd rfl hne
        | cons f ftl => simp

theorem bodyPattern_ne_nil {body : List Char} (h : BodyPattern body) :
    body ≠ [] := by
  rcases h with ⟨hne, _⟩ | ⟨ds, fs, heq, hne, _, _⟩ | ⟨fs, heq, _, _⟩
  · exact hne
  · subst heq
    cases ds with
    | nil => exact absurd rfl hne
    | cons d dtl => simp
  · subst heq
    simp

theorem bodyPattern_head {c : Char} {tl : List Char}
    (h : BodyPattern (c :: tl)) : isDigitCh c = true ∨ c = '.' := by
  rcases h with ⟨_, hall⟩ | ⟨ds, fs, heq, hne, hds, _⟩ | ⟨fs, heq, _, _⟩
  · exact Or.inl (hall c (by simp))
  · cases ds with
    | nil => exact absurd rfl hne
    | cons d dtl =>
      simp only [List.cons_append, List.cons.injEq] at heq
      exact Or.inl (heq.1 ▸ hds d (by simp))
  · rw [List.cons.injEq] at heq
    exact Or.inr heq.1

theorem digit_ne_plus {c : Char} (h : isDigitCh c = true) : ¬ c = '+' := by
  intro he
  subst he
  simp [isDigitCh] at h

theorem digit_ne_minus {c : Char} (h : isDigitCh c = true) : ¬ c = '-' := by
  intro he
  subst he
  simp [isDigitCh] at h

/-- The regex test agrees with the declarative signed-number pattern. -/
theorem numberRegexTest_iff (s : String) :
    numberRegexTest s = true ↔ SignedNumericText s := by
  constructor
  · intro h
    rw [numberRegexTest] at h
    cases hl : s.data with
    | nil =>
      rw [hl] at h
      exact absurd h (by simp)
    | cons c rest =>
      rw [hl] at h
      dsimp only at h
      by_cases h1 : c = '+'
      · subst h1
        rw [if_pos (by simp)] at h
        exact ⟨['+'], rest, hl, Or.inr (Or.inl rfl), (numBodyTest_iff rest).mp h⟩
      · by_cases h2 : c = '-'
        · subst h2
          rw [if_pos (by simp)] at h
          exact ⟨['-'], rest, hl, Or.inr (Or.inr rfl),
            (numBodyTest_iff rest).mp h⟩
        · rw [if_neg (by simp [h1, h2])] at h
          exact ⟨[], c :: rest, by simp [hl], Or.inl rfl,
            (numBodyTest_iff _).mp h⟩
  · rintro ⟨sgn, body, hdata, hsgn, hpat⟩
    rw [numberRegexTest]
    have hbody := (numBodyTest_iff body).mpr hpat
    rcases hsgn with h0 | h0 | h0
    · subst h0
      simp only [List.nil_append] at hdata
      rw [hdata]
      cases body with
      | nil => exact absurd rfl (bodyPattern_ne_nil hpat)
      | cons c tl =>
        have hns : ¬ c = '+' ∧ ¬ c = '-' := by
          rcases bodyPattern_head hpat with hd | hd
          · exact ⟨digit_ne_plus hd, digit_ne_minus hd⟩
          · subst hd
            exact ⟨by decide, by decide⟩
        dsimp only
        rw [if_neg (by simp [hns.1, hns.2])]
        exact hbody
    · subst h0
      rw [hdata]
      simpa using hbody
    · subst h0
      rw [hdata]
      simpa using hbody

/-!  Concrete fixtures used by the claim theorems. -/

/-- A placeholder object type: what the environment resolves unknown keys
to. -/
def defaultObj : ObjTy := .mk none false none false [] [] [] .otherO

/-- An environment that resolves no named object type of interest. -/
def emptyEnv : TyEnv := fun _ => defaultObj

/-- The spec's own recursive example `type Node = {value: string, next?: Node}`:
a type alias, so the object's own symbol is the anonymous `__type`; the
member `value : string` is declared before the optional self-referential
member `next?: Node` (whose symbol type is the union `Node | undefined`). -/
def nodeObj : ObjTy := .mk (some "__type") false none false
  [ .mk "value" true false true (.prim "string" none) [],
    .mk "next" true true true (.union [.objRef "Node", .undefinedT]) [] ]
  [] [] .otherO

/-- The environment interning the `Node` alias. -/
def nodeEnv : TyEnv := fun k => if k = "Node" then nodeObj else defaultObj

theorem c1_node_step (n d : Nat) (opt : Bool)
    (hrec : ∀ d', Full.parseType nodeEnv n (.objRef "Node") d' [] true true =
      .fuelOut) :
    Full.parseType nodeEnv (n + 1 + 1) (.objRef "Node") d [] true opt =
      .fuelOut := by
  have hk : nodeEnv "Node" = nodeObj := rfl
  have hpre : predefinedLookup (some "__type") = none := rfl
  have hts : typeToString nodeEnv (.objRef "Node") = "__type" := rfl
  have htu : typeToString nodeEnv .undefinedT = "undefined" := rfl
  simp only [Full.parseType, resolveTy, hk, hpre, hts, htu,
    Full.parseInterface, Full.interfaceProps, Full.parseUnion,
    Full.unionFilter, Full.parsePrimitive, nodeObj, ObjTy.name,
    ObjTy.isArray, ObjTy.indexSig, ObjTy.props, ObjTy.symbolTags,
    ObjTy.aliasTags, PropSig.name, PropSig.hasDecl, PropSig.question,
    PropSig.hasTyField, PropSig.ty, PropSig.tags, isBooleanLiteral,
    isLiteral, List.filter, List.not_mem_nil, List.dropLast, hrec]
  simp [hrec]

/-- C1: the claim fails on the code.  For the spec's own example
`type Node = {value: string, next?: Node}` (the member `value` declared
before `next`), decomposition does not terminate: for every recursion
budget the full variant runs out of fuel, because the History guard is
popped after each processed property, so the `next` branch re-enters
`Node` unguarded (and the alias's anonymous `__type` symbol is never
pushed at all).  The claimed behaviour — stop with `{type:"any"}` — never
happens; the recursion is infinite. -/
theorem c1_node_nontermination :
    ∀ (fuel d : Nat) (opt : Bool),
      Full.parseType nodeEnv fuel (.objRef "Node") d [] true opt =
        .fuelOut := by
  intro fuel
  induction fuel using Nat.strong_induction_on with
  | _ fuel ih =>
    cases fuel with
    | zero =>
      intro d opt
      rfl
    | succ m =>
      cases m with
      | zero =>
        intro d opt
        rfl
      | succ n =>
        intro d opt
        exact c1_node_step n d opt fun d' => ih n (by omega) d' true

/-- The interface `B { z: string }`: one string property, entered while
some other type's name is already on the History stack. -/
def bObj : ObjTy := .mk (some "B") false none false
  [ .mk "z" true false true (.prim "string" none) [] ] [] [] .interfaceO

/-- C2: the claim fails on the code.  Decomposing `interface B {z: string}`
nested at depth 1 with History `["A"]` (as it would be while inside an
enclosing interface `A`) pushes `"B"` once but pops twice — once after the
property `z` and once more at the end of `parseInterface` — so the
subtree returns with History `[]` instead of restoring `["A"]`: the
enclosing type's guard name is lost while its own subtree is still being
decomposed. -/
theorem c2_pop_imbalance :
    Full.parseType emptyEnv 3 (.obj bObj) 1 [some "A"] true false =
      .ok (.obj [("type", .str "object"),
                 ("props", .obj [("z", .obj [("type", .str "string")])])]) [] ∧
    ([] : Hist) ≠ [some "A"] :=
  ⟨rfl, by simp⟩

/-- C3, counterexample: in the simplified variant a type whose kind matches
no dispatch rule (here a `void`-like kind) silently produces the empty
object literal instead of failing. -/
theorem c3_unknown_kind_counterexample :
    Simple.parseType emptyEnv 1 (.otherT "void") = .ok (.obj []) := rfl

/-- C3, amended: the full variant throws `"Unknown type"` on a kind that
matches no dispatch rule; the simplified variant instead silently emits an
empty object literal. -/
theorem c3_unknown_kind_amended (disp : String) (fuel dep : Nat) (h : Hist)
    (add opt : Bool) :
    Full.parseType emptyEnv (fuel + 1) (.otherT disp) dep h add opt =
      .thrown "Unknown type" ∧
    Simple.parseType emptyEnv (fuel + 1) (.otherT disp) = .ok (.obj []) :=
  ⟨rfl, rfl⟩

/-- C7, counterexample: the two variants are not observably equivalent.
On the `undefined` type the full variant emits `{type:"forbidden"}` while
the simplified variant emits `{}`. -/
theorem c7_variants_differ :
    Full.parseType emptyEnv 1 .undefinedT 0 [] true false =
      .ok (.obj [("type", .str "forbidden")]) [] ∧
    Simple.parseType emptyEnv 1 .undefinedT = .ok (.obj []) ∧
    Expr.obj [("type", .str "forbidden")] ≠ Expr.obj [] :=
  ⟨rfl, rfl, by simp⟩

/-- C7, amended: on non-literal primitive-like types the two variants do
produce the same schema literal `{type: <display string>}`; in general they
are two diverging versions of the same component. -/
theorem c7_variants_agree_on_primitives (disp : String) (fuel : Nat)
    (add : Bool) :
    Full.parseType emptyEnv (fuel + 1) (.prim disp none) 0 [] add false =
      .ok (.obj [("type", .str disp)]) [] ∧
    Simple.parseType emptyEnv (fuel + 1) (.prim disp none) =
      .ok (.obj [("type", .str disp)]) :=
  ⟨rfl, rfl⟩

/-- C8: an object type whose symbol name is in the `predefined` marker
table yields the fixed mapped node immediately — before the array test,
the index-signature test, the History guard and the interface rule — for
any structure, depth, History and flags, and leaves History untouched. -/
theorem c8_marker_precedence (env : TyEnv) (f : Nat) (o : ObjTy) (d : Nat)
    (h : Hist) (add opt : Bool) (n v : String)
    (hn : o.name = some n) (hv : predefinedLookup (some n) = some v) :
    Full.parseType env (f + 1) (.obj o) d h add opt =
      .ok (.obj [("type", .str v)]) h := by
  simp only [Full.parseType, resolveTy, hn, hv]

/-- A structurally rich object named `IDate`: an array with an index
signature, a property, and its own name already on the History stack. -/
def markerObj : ObjTy := .mk (some "IDate") true (some (.prim "string" none))
  true [ .mk "x" true false true (.prim "string" none) [] ] [] [] .interfaceO

theorem c8_marker_precedence_witness :
    predefinedLookup (some "IDate") = some "date" ∧
    Full.parseType emptyEnv 1 (.obj markerObj) 5 [some "IDate"] true true =
      .ok (.obj [("type", .str "date")]) [some "IDate"] :=
  ⟨rfl, c8_marker_precedence emptyEnv 0 markerObj 5 [some "IDate"] true true
    "IDate" "date" rfl rfl⟩

theorem quoted_ne_undefined (s : String) :
    ("\"" ++ s ++ "\"" : String) ≠ "undefined" := by
  intro heq
  have hd := congrArg String.data heq
  simp [String.data_append] at hd

/-- C5: in a union, the literal `undefined` member is dropped and instead
sets the optional flag.  First conjunct: for `m | undefined` with `m` not a
boolean literal, the result is exactly the decomposition of `m` with the
optional flag set — a single node, not an alternation.  Second conjunct:
boolean-literal members collapse to the first one encountered — for
`b1 | b2 | undefined | "x"` the enum values keep only `b1` (and the
dropped `undefined` surfaces as `optional: true`). -/
theorem c5_union_undefined (env : TyEnv) (f : Nat) (m : Ty) (d : Nat)
    (h : Hist) (add opt : Bool) (b1 b2 : Bool) (s : String)
    (hm1 : isBooleanLiteral m = false)
    (hm2 : typeToString env m ≠ "undefined") :
    Full.parseType env (f + 1) (.union [m, .undefinedT]) d h add opt =
      Full.parseType env f m (d + 1) h add true ∧
    Full.parseType env (f + 1)
        (.union [.boolLit b1, .boolLit b2, .undefinedT,
          .prim ("\"" ++ s ++ "\"") (some (.str s))]) d h add false =
      .ok (.obj [("optional", .bool true), ("type", .str "enum"),
                 ("values", .arr [.bool b1, .str s])]) h := by
  have hbu : isBooleanLiteral Ty.undefinedT = false := rfl
  have htu : typeToString env Ty.undefinedT = "undefined" := rfl
  constructor
  · have hfil : Full.unionFilter env [m, .undefinedT] true false = ([m], true) := by
      simp [Full.unionFilter, hm1, hm2, hbu, htu]
    simp only [Full.parseType, resolveTy, Full.parseUnion, hfil, hm1,
      Bool.false_eq_true, if_false, Bool.true_or]
  · have hts : typeToString env (.prim ("\"" ++ s ++ "\"") (some (.str s))) =
        "\"" ++ s ++ "\"" := rfl
    have hbb : ∀ b, isBooleanLiteral (Ty.boolLit b) = true := fun _ => rfl
    have hbs : isBooleanLiteral (.prim ("\"" ++ s ++ "\"") (some (.str s))) = false := rfl
    have hfil : Full.unionFilter env
        [.boolLit b1, .boolLit b2, .undefinedT,
         .prim ("\"" ++ s ++ "\"") (some (.str s))] true false =
        ([.boolLit b1, .prim ("\"" ++ s ++ "\"") (some (.str s))], true) := by
      simp [Full.unionFilter, hbb, hbs, hts, quoted_ne_undefined s, hbu, htu]
    simp only [Full.parseType, resolveTy, Full.parseUnion, hfil]
    have hls : isLiteral (.prim ("\"" ++ s ++ "\"") (some (.str s))) = true := rfl
    have hlb : ∀ b, isLiteral (Ty.boolLit b) = true := fun _ => rfl
    have hvs : tsValue (.prim ("\"" ++ s ++ "\"") (some (.str s))) = .str s := rfl
    simp only [hls, hlb, hbb, hbs, List.isEmpty_cons, List.all_cons,
      List.all_nil, Bool.and_true, Bool.true_and, Bool.not_false, if_true,
      Bool.or_true, hvs, List.map]
    cases b1 <;> simp [typeToString]

theorem c5_union_undefined_witness :
    Full.parseType emptyEnv 3 (.union [.prim "string" none, .undefinedT]) 0 []
        true false =
      Full.parseType emptyEnv 2 (.prim "string" none) 1 [] true true ∧
    Full.parseType emptyEnv 3
        (.union [.boolLit true, .boolLit false, .undefinedT,
          .prim ("\"" ++ "x" ++ "\"") (some (.str "x"))]) 0 [] true false =
      .ok (.obj [("optional", .bool true), ("type", .str "enum"),
                 ("values", .arr [.bool true, .str "x"])]) [] :=
  c5_union_undefined emptyEnv 2 (.prim "string" none) 0 [] true false true
    false "x" rfl (by decide)

/-- An intersection member `{p: t}`: an anonymous one-property object
type. -/
def onePropMember (p : String) (t : Ty) : Ty :=
  .obj (.mk (some "__type") false none false
    [ .mk p true false true t [] ] [] [] .otherO)

theorem c6_member_eval (env : TyEnv) (f : Nat) (p : String) (t : Ty)
    (add : Bool) (dep : Nat) (e : Expr) (hdep : dep ≠ 0)
    (ht : Full.parseType env f t (dep + 1) [] add false = .ok e []) :
    Full.parseType env (f + 1) (onePropMember p t) dep [] add false =
      .ok (.obj [("type", .str "object"), ("props", .obj [(p, e)])]) [] := by
  have hpre : predefinedLookup (some "__type") = none := rfl
  simp only [onePropMember, Full.parseType, resolveTy, hpre,
    Full.parseInterface, Full.interfaceProps, ObjTy.name, ObjTy.isArray,
    ObjTy.indexSig, ObjTy.props, ObjTy.symbolTags, ObjTy.aliasTags,
    PropSig.name, PropSig.hasDecl, PropSig.question, PropSig.hasTyField,
    PropSig.ty, PropSig.tags, List.filter, List.not_mem_nil, ht,
    List.dropLast]
  simp [ht, hdep]

/-- C6: intersection members' `props` mappings are merged with the later
member winning name collisions.  First conjunct: at the top level (depth
0 call) `{p: t1} & {p: t2}` emits the flat mapping `{p: decompose(t2)}` —
the later member's entry survives.  Second conjunct: nested (depth 1
call), `{p: t1} & {q: t2}` is wrapped in `{type:"object", props: ...}`,
the collected entries coming from the reversed member list. -/
theorem c6_intersection_merge (env : TyEnv) (f : Nat) (p q : String)
    (t1 t2 : Ty) (add : Bool) (e1 e2 g1 g2 : Expr)
    (hpq : p ≠ q)
    (h1 : Full.parseType env f t1 2 [] add false = .ok e1 [])
    (h2 : Full.parseType env f t2 2 [] add false = .ok e2 [])
    (h3 : Full.parseType env f t1 3 [] add false = .ok g1 [])
    (h4 : Full.parseType env f t2 3 [] add false = .ok g2 []) :
    Full.parseType env (f + 1 + 1)
        (.inter [onePropMember p t1, onePropMember p t2] [] []) 0 [] add false =
      .ok (.obj [(p, e2)]) [] ∧
    Full.parseType env (f + 1 + 1)
        (.inter [onePropMember p t1, onePropMember q t2] [] []) 1 [] add false =
      .ok (.obj [("type", .str "object"),
                 ("props", .obj [(q, g2), (p, g1)])]) [] := by
  constructor
  · have hm1 := c6_member_eval env f p t1 add 1 e1 (by simp) h1
    have hm2 := c6_member_eval env f p t2 add 1 e2 (by simp) h2
    rw [Full.parseType]
    simp only [resolveTy, Full.parseIntersection, Full.interMap, hm1, hm2]
    simp [Full.collectProps, Full.collectFromEntries, Full.dedupAdd]
  · have hm1 := c6_member_eval env f p t1 add 2 g1 (by simp) h3
    have hm2 := c6_member_eval env f q t2 add 2 g2 (by simp) h4
    rw [Full.parseType]
    simp only [resolveTy, Full.parseIntersection, Full.interMap, hm1, hm2]
    simp [Full.collectProps, Full.collectFromEntries, Full.dedupAdd, hpq]

theorem c6_intersection_merge_witness :
    Full.parseType emptyEnv 3
        (.inter [onePropMember "p" (.prim "string" none),
                 onePropMember "p" (.prim "number" none)] [] []) 0 [] true
        false =
      .ok (.obj [("p", .obj [("type", .str "number")])]) [] ∧
    Full.parseType emptyEnv 3
        (.inter [onePropMember "p" (.prim "string" none),
                 onePropMember "q" (.prim "number" none)] [] []) 1 [] true
        false =
      .ok (.obj [("type", .str "object"),
                 ("props", .obj [("q", .obj [("type", .str "number")]),
                                 ("p", .obj [("type", .str "string")])])]) [] :=
  c6_intersection_merge emptyEnv 1 "p" "q" (.prim "string" none)
    (.prim "number" none) true _ _ _ _ (by decide) rfl rfl rfl rfl

/-- The object type `{a: A, b?: B}`: two declared properties, the second
optional. -/
def twoPropObj (a b : String) (A B : Ty) : ObjTy :=
  .mk (some "__type") false none false
    [ .mk a true false true A [], .mk b true true true B [] ] [] [] .otherO

/-- C4: depth decides flat versus wrapped.  Decomposing `{a: A, b?: B}` as
the top-level call argument (depth 0, so the interface rule runs at depth
1) yields the property mapping flat with no `type`/`props` wrapper, while
decomposing the same type nested (depth 1, interface rule at depth 2)
wraps it in `{type:"object", props:{...}}`; in both cases the optional
property's node — whenever the recursion produced an object literal —
carries an appended `optional: true`. -/
theorem c4_object_depth (env : TyEnv) (f : Nat) (a b : String) (A B : Ty)
    (add : Bool) (eA fA : Expr) (lB mB : List (String × Expr))
    (hA1 : Full.parseType env f A 1 [] add false = .ok eA [])
    (hB1 : Full.parseType env f B 1 [] add true = .ok (.obj lB) [])
    (hA2 : Full.parseType env f A 2 [] add false = .ok fA [])
    (hB2 : Full.parseType env f B 2 [] add true = .ok (.obj mB) []) :
    Full.parseType env (f + 1) (.obj (twoPropObj a b A B)) 0 [] add false =
      .ok (.obj [(a, eA), (b, .obj (lB ++ [("optional", .bool true)]))]) [] ∧
    Full.parseType env (f + 1) (.obj (twoPropObj a b A B)) 1 [] add false =
      .ok (.obj [("type", .str "object"),
        ("props",
          .obj [(a, fA), (b, .obj (mB ++ [("optional", .bool true)]))])]) [] := by
  have hpre : predefinedLookup (some "__type") = none := rfl
  constructor
  · simp only [twoPropObj, Full.parseType, resolveTy, hpre,
      Full.parseInterface, Full.interfaceProps, Full.addProperty,
      ObjTy.name, ObjTy.isArray, ObjTy.indexSig, ObjTy.props,
      ObjTy.symbolTags, ObjTy.aliasTags, PropSig.name, PropSig.hasDecl,
      PropSig.question, PropSig.hasTyField, PropSig.ty, PropSig.tags,
      List.filter, List.not_mem_nil, hA1, hB1, List.dropLast]
    simp [hA1, hB1]
  · simp only [twoPropObj, Full.parseType, resolveTy, hpre,
      Full.parseInterface, Full.interfaceProps, Full.addProperty,
      ObjTy.name, ObjTy.isArray, ObjTy.indexSig, ObjTy.props,
      ObjTy.symbolTags, ObjTy.aliasTags, PropSig.name, PropSig.hasDecl,
      PropSig.question, PropSig.hasTyField, PropSig.ty, PropSig.tags,
      List.filter, List.not_mem_nil, hA2, hB2, List.dropLast]
    simp [hA2, hB2]

theorem c4_object_depth_witness :
    Full.parseType emptyEnv 3
        (.obj (twoPropObj "a" "b" (.prim "string" none) (.prim "number" none)))
        0 [] true false =
      .ok (.obj [("a", .obj [("type", .str "string")]),
                 ("b", .obj [("optional", .bool true), ("type", .str "number"),
                             ("optional", .bool true)])]) [] ∧
    Full.parseType emptyEnv 3
        (.obj (twoPropObj "a" "b" (.prim "string" none) (.prim "number" none)))
        1 [] true false =
      .ok (.obj [("type", .str "object"),
        ("props",
          .obj [("a", .obj [("type", .str "string")]),
                ("b", .obj [("optional", .bool true), ("type", .str "number"),
                            ("optional", .bool true)])])]) [] :=
  c4_object_depth emptyEnv 2 "a" "b" (.prim "string" none)
    (.prim "number" none) true _ _ _ _ rfl rfl rfl rfl

/-- C9: tag-text coercion is total and three-way.  `parseJSDoc` keeps a
tag with nonempty text and coerces it; the exact texts `"true"`/`"false"`
become booleans; any other text matching the signed decimal/integer
pattern becomes a number; every remaining text stays a string.  No input
fails. -/
theorem c9_doc_coercion (n s : String) :
    Full.parseJSDoc [⟨n, some s⟩] =
      (if s = "" then [] else [(n, coerceTag s)]) ∧
    coerceTag "true" = .bool true ∧
    coerceTag "false" = .bool false ∧
    (s ≠ "true" → s ≠ "false" → SignedNumericText s →
      coerceTag s = .num s) ∧
    (s ≠ "true" → s ≠ "false" → ¬ SignedNumericText s →
      coerceTag s = .str s) := by
  refine ⟨?_, rfl, rfl, ?_, ?_⟩
  · by_cases hs : s = ""
    · subst hs
      rfl
    · simp [Full.parseJSDoc, docTextTruthy, hs]
  · intro h1 h2 h3
    rw [coerceTag, if_neg h1, if_neg h2,
      if_pos ((numberRegexTest_iff s).mpr h3)]
  · intro h1 h2 h3
    rw [coerceTag, if_neg h1, if_neg h2,
      if_neg (fun hb => h3 ((numberRegexTest_iff s).mp hb))]

theorem c9_doc_coercion_witness :
    coerceTag "-12.5" = .num "-12.5" ∧
    Full.parseJSDoc [⟨"min", some "-12.5"⟩] = [("min", coerceTag "-12.5")] := by
  have h := c9_doc_coercion "min" "-12.5"
  constructor
  · exact h.2.2.2.1 (by decide) (by decide)
      ⟨['-'], ['1', '2', '.', '5'], by decide, Or.inr (Or.inr rfl),
        Or.inr (Or.inl ⟨['1', '2'], ['5'], by decide, by decide,
          by decide, by decide⟩)⟩
  · have h1 := h.1
    rw [if_neg (by decide)] at h1
    exact h1

/-- An object type with only the array element changed: every doc tag
inside the element type erased, everything else kept. -/
def eraseArrayElem (o : ObjTy) : ObjTy :=
  match o with
  | .mk n a e i ps s al fl => .mk n a (e.map eraseTy) i ps s al fl

/-- C10: the array rule recurses into the element type with the
`additional` argument omitted, so doc tags occurring anywhere inside the
element type can never influence the `items` subtree — the output is
invariant under erasing them, even when the enclosing call has
`additional` enabled. -/
theorem c10_array_items_no_docs (env : TyEnv) (f : Nat) (o : ObjTy)
    (d : Nat) (h : Hist) (add opt : Bool) (e : Ty)
    (hpre : predefinedLookup o.name = none)
    (harr : o.isArray = true)
    (helem : o.arrayElem = some e) :
    Full.parseType (eraseEnv env) (f + 1) (.obj (eraseArrayElem o)) d h add
        opt =
      Full.parseType env (f + 1) (.obj o) d h add opt := by
  have hn : (eraseArrayElem o).name = o.name := by
    cases o
    rfl
  have ha : (eraseArrayElem o).isArray = o.isArray := by
    cases o
    rfl
  have he : (eraseArrayElem o).arrayElem = o.arrayElem.map eraseTy := by
    cases o
    rfl
  simp only [Full.parseType, resolveTy, hn, hpre, ha, harr, if_true]
  unfold Full.parseArray
  rw [he, helem]
  simp only [Option.map_some']
  rw [parseType_erase]

/-- A nested object element type carrying both a property-level and a
type-level doc tag. -/
def taggedElem : Ty := .obj (.mk (some "__type") false none false
  [ .mk "q" true false true (.prim "string" none)
      [DocTag.mk "min" (some "3")] ]
  [DocTag.mk "max" (some "9")] [] .otherO)

/-- The array type `taggedElem[]`. -/
def arrayOfTagged : ObjTy :=
  .mk (some "Array") true (some taggedElem) false [] [] [] .referenceO

theorem c10_array_items_no_docs_witness :
    Full.parseType (eraseEnv emptyEnv) 4
        (.obj (eraseArrayElem arrayOfTagged)) 0 [] true false =
      Full.parseType emptyEnv 4 (.obj arrayOfTagged) 0 [] true false :=
  c10_array_items_no_docs emptyEnv 3 arrayOfTagged 0 [] true false
    taggedElem rfl rfl rfl
